import Mathlib

/-!
Shallow embedding of the string-literal parser of the sython repository
(src/mys/parser/string_parser.c) and proofs about the frozen claims.

Modelling conventions, used throughout:

* A C byte buffer is modelled as a `List Char`.  A character with code
  point at least 0x80 plays the role of a non-ASCII UTF-8 run that the C
  code would decode with `decode_utf8`; ASCII characters are bytes.
* A C cursor pair `(s, end)` is modelled by the list of remaining
  characters; reading `*s` past `end` (the C code reads the closing quote
  or the NUL terminator there, both different from every character the
  code compares against) is modelled by `peekc`, which yields the NUL
  character on the empty list.
* CPython library routines that the repository merely calls
  (`PyUnicode_DecodeUnicodeEscape`, `PyBytes_DecodeEscape`,
  `PyUnicode_DecodeUTF8Stateful`, the embedded expression parser) are
  external collaborators; they are modelled from the interface the spec
  describes for them, and each such definition says so in its comment.
* Reference counting, arenas, allocation failure and source-location
  bookkeeping (line/column spans) are not observable in any claim and are
  omitted; `assert` statements are treated as compiled out (NDEBUG).
* Error returns (`NULL` / `-1`) are modelled with `Except ParseErr`; each
  `RAISE_SYNTAX_ERROR` message string is reproduced verbatim.
-/

namespace Mys

/-- NUL, the value the C code reads at a string terminator. -/
def nulChar : Char := Char.ofNat 0

/-- The backslash character. -/
def bslashChar : Char := Char.ofNat 92

/-- The left curly brace character. -/
def lbraceChar : Char := Char.ofNat 123

/-- The right curly brace character. -/
def rbraceChar : Char := Char.ofNat 125

/-- The single-quote character. -/
def squoteChar : Char := Char.ofNat 39

/-- The double-quote character. -/
def dquoteChar : Char := Char.ofNat 34

/-- Reading the byte at the cursor; on an exhausted buffer the C code reads
the NUL terminator (or a closing quote, which no comparison in the code
matches), modelled as NUL. -/
def peekc (s : List Char) : Char := s.headD nulChar

/-- SIZE_MAX for the 64-bit platform the code targets. -/
def SIZE_MAX : Nat := 18446744073709551615

/-- INT_MAX for the platform the code targets. -/
def INT_MAX : Nat := 2147483647

/-- MAXLEVEL, the bracket-nesting bound of `fstring_find_expr`.  The value
lives in a header that is not under src/; CPython, from which this parser
derives, uses 200, and no claim depends on the exact value. -/
def MAXLEVEL : Nat := 200

/-- Message of RAISE_SYNTAX_ERROR at string_parser.c line 498. -/
def msgSingleRbrace : String := "f-string: single \x27\x7d\x27 is not allowed"

/-- Message of RAISE_SYNTAX_ERROR at string_parser.c line 381. -/
def msgEmptyExpr : String := "f-string: empty expression not allowed"

/-- Message of RAISE_SYNTAX_ERROR at string_parser.c line 607. -/
def msgBackslash : String := "f-string expression part cannot include a backslash"

/-- Message of RAISE_SYNTAX_ERROR at string_parser.c line 662. -/
def msgHash : String := "f-string expression part cannot include \x27#\x27"

/-- Message of RAISE_SYNTAX_ERROR at string_parser.c line 580. -/
def msgNestedTooDeep : String := "f-string: expressions nested too deeply"

/-- Message of RAISE_SYNTAX_ERROR at string_parser.c line 654. -/
def msgTooManyNested : String := "f-string: too many nested parenthesis"

/-- Message of RAISE_SYNTAX_ERROR at string_parser.c line 718. -/
def msgUnterminatedString : String := "f-string: unterminated string"

/-- Message of RAISE_SYNTAX_ERROR at string_parser.c line 830. -/
def msgExpectRbrace : String := "f-string: expecting \x27\x7d\x27"

/-- Message of RAISE_SYNTAX_ERROR at string_parser.c line 775. -/
def msgInvalidConversion : String :=
  "f-string: invalid conversion character: expected \x27s\x27, \x27r\x27, or \x27a\x27"

/-- Message of RAISE_SYNTAX_ERROR at string_parser.c line 743. -/
def msgSelfDoc : String :=
  "f-string: self documenting expressions are only supported in Python 3.8 and greater"

/-- Message of RAISE_SYNTAX_ERROR at string_parser.c line 1174. -/
def msgUnexpectedEnd : String := "f-string: unexpected end of string"

/-- Message of RAISE_SYNTAX_ERROR at string_parser.c line 192. -/
def msgPrefixOnChar : String := "characters cannot have a prefix"

/-- Message of RAISE_SYNTAX_ERROR at string_parser.c line 237. -/
def msgTripleChar : String := "characters cannot be triple quoted"

/-- Message of RAISE_SYNTAX_ERROR at string_parser.c line 202. -/
def msgFstringVersion : String :=
  "Format strings are only supported in Python 3.6 and greater"

/-- Message of RAISE_SYNTAX_ERROR at string_parser.c line 269. -/
def msgBytesAscii : String := "bytes can only contain ASCII literal characters."

/-- Message of RAISE_SYNTAX_ERROR at string_parser.c line 693 and 723;
the offending character is spliced in for the %c directive. -/
def msgUnmatched (c : Char) : String :=
  "f-string: unmatched \x27" ++ String.singleton c ++ "\x27"

/-- Message of RAISE_SYNTAX_ERROR at string_parser.c line 702. -/
def msgClosingMismatch (c o : Char) : String :=
  "f-string: closing parenthesis \x27" ++ String.singleton c ++
    "\x27 does not match opening parenthesis \x27" ++ String.singleton o ++ "\x27"

/-- The failure modes of the embedded code.  `syn` carries the text of a
RAISE_SYNTAX_ERROR; `badInternalCall` is PyErr_BadInternalCall;
`overflowTooLong` is the PyExc_OverflowError of parsestr; `decodeFail` is a
NULL return from one of the decoding collaborators; `exprParseFail` is a
NULL return from the embedded expression parser; `fuelOut` marks
exhaustion of the fuel that makes the loops of the embedding structurally
recursive (the C loops always terminate, and every theorem below either
supplies ample fuel or conditions on a successful run). -/
inductive ParseErr where
  | syn (msg : String)
  | badInternalCall
  | overflowTooLong
  | decodeFail
  | exprParseFail
  | fuelOut
deriving DecidableEq

/-- Char value of a hex digit, as the decoders read it. -/
def hexVal (c : Char) : Nat :=
  if 48 ≤ c.toNat ∧ c.toNat ≤ 57 then c.toNat - 48
  else if 97 ≤ c.toNat ∧ c.toNat ≤ 102 then c.toNat - 87
  else if 65 ≤ c.toNat ∧ c.toNat ≤ 70 then c.toNat - 55
  else 0

/-- Whether a character is an ASCII hex digit. -/
def isHexDig (c : Char) : Bool :=
  (48 ≤ c.toNat && c.toNat ≤ 57) || (97 ≤ c.toNat && c.toNat ≤ 102) ||
    (65 ≤ c.toNat && c.toNat ≤ 70)

/-- Whether a character is an ASCII octal digit. -/
def isOctDig (c : Char) : Bool := 48 ≤ c.toNat && c.toNat ≤ 55

/-- Value of an octal digit. -/
def octVal (c : Char) : Nat := c.toNat - 48

/-- Lower-case hex digit for a value below 16, as printed by %x. -/
def hexDigitChr (d : Nat) : Char :=
  if d < 10 then Char.ofNat (48 + d) else Char.ofNat (87 + d)

/-- The eight lower-case hex digits sprintf "%08x" prints for a 32-bit
value. -/
def toHex8 (n : Nat) : List Char :=
  [hexDigitChr (n / 268435456 % 16), hexDigitChr (n / 16777216 % 16),
   hexDigitChr (n / 1048576 % 16), hexDigitChr (n / 65536 % 16),
   hexDigitChr (n / 4096 % 16), hexDigitChr (n / 256 % 16),
   hexDigitChr (n / 16 % 16), hexDigitChr (n % 16)]

/-- Combined value of eight hex digits, most significant first. -/
def hex8Val (h1 h2 h3 h4 h5 h6 h7 h8 : Char) : Nat :=
  ((((((hexVal h1 * 16 + hexVal h2) * 16 + hexVal h3) * 16 + hexVal h4) * 16 +
      hexVal h5) * 16 + hexVal h6) * 16 + hexVal h7) * 16 + hexVal h8

/-- The escape sequence decode_unicode_with_escapes writes for one decoded
code point: sprintf(p, "\\U%08x", chr) at string_parser.c line 103. -/
def escU (c : Char) : List Char := bslashChar :: 'U' :: toHex8 c.toNat

/-- The pre-escape pass of decode_unicode_with_escapes (string_parser.c
lines 76 to 113): copy ASCII bytes, rewrite a backslash that is followed
by end of input or a non-ASCII byte to the escape form backslash-u005c,
and rewrite every non-ASCII code point to its backslash-U00xxxxxx escape
form so the escape decoder sees pure ASCII.  The C code decodes a whole
UTF-8 run at once and then escapes each resulting code point; on the
code-point model of buffers this is the same as escaping character by
character. -/
def preEscape : List Char → List Char
  | [] => []
  | c :: rest =>
    if c = bslashChar then
      match rest with
      | [] => [bslashChar, 'u', '0', '0', '5', 'c']
      | d :: rest1 =>
        if 128 ≤ d.toNat then
          bslashChar :: 'u' :: '0' :: '0' :: '5' :: 'c' :: preEscape (d :: rest1)
        else
          bslashChar :: d :: preEscape rest1
    else if 128 ≤ c.toNat then escU c ++ preEscape rest
    else c :: preEscape rest

/-- Modelled from the spec: PyUnicode_DecodeUnicodeEscape, the external
CPython escape decoder the repository calls (spec section 4.A step 2).
Supported escapes: newline, tab, carriage return, backslash, both quotes,
octal up to three digits, backslash-x with two hex digits, backslash-u
with four, backslash-U with eight (rejecting values above 0x10FFFF),
backslash-a, -b, -f, -v; an unknown escape keeps the backslash and the
character verbatim (the deprecation warning it triggers is not modelled).
The backslash-N named escape needs the external Unicode name database and
is modelled as a decoding failure; no theorem below exercises it, because
every input that reaches the decoder in a proof is backslash-free.
Code points that are not valid Lean characters (lone surrogates) cannot
arise from the pre-escape pass and are out of model.  The dispatch on the
character after a backslash is its own (non-recursive) function taking
the continuation `k` that resumes decoding. -/
def uniEscStep (k : List Char → Option (List Char)) : List Char → Option (List Char)
  | [] => none
  | e :: rest1 =>
    if e = 'n' then (k rest1).map (Char.ofNat 10 :: ·)
    else if e = 't' then (k rest1).map (Char.ofNat 9 :: ·)
    else if e = 'r' then (k rest1).map (Char.ofNat 13 :: ·)
    else if e = bslashChar then (k rest1).map (bslashChar :: ·)
    else if e = squoteChar then (k rest1).map (squoteChar :: ·)
    else if e = dquoteChar then (k rest1).map (dquoteChar :: ·)
    else if e = 'a' then (k rest1).map (Char.ofNat 7 :: ·)
    else if e = 'b' then (k rest1).map (Char.ofNat 8 :: ·)
    else if e = 'f' then (k rest1).map (Char.ofNat 12 :: ·)
    else if e = 'v' then (k rest1).map (Char.ofNat 11 :: ·)
    else if isOctDig e then
      match rest1 with
      | d2 :: rest2 =>
        if isOctDig d2 then
          match rest2 with
          | d3 :: rest3 =>
            if isOctDig d3 then
              (k rest3).map (Char.ofNat (octVal e * 64 + octVal d2 * 8 + octVal d3) :: ·)
            else (k (d3 :: rest3)).map (Char.ofNat (octVal e * 8 + octVal d2) :: ·)
          | [] => some [Char.ofNat (octVal e * 8 + octVal d2)]
        else (k (d2 :: rest2)).map (Char.ofNat (octVal e) :: ·)
      | [] => some [Char.ofNat (octVal e)]
    else if e = 'x' then
      match rest1 with
      | h1 :: h2 :: rest2 =>
        if isHexDig h1 && isHexDig h2 then
          (k rest2).map (Char.ofNat (hexVal h1 * 16 + hexVal h2) :: ·)
        else none
      | _ => none
    else if e = 'u' then
      match rest1 with
      | h1 :: h2 :: h3 :: h4 :: rest2 =>
        if isHexDig h1 && isHexDig h2 && isHexDig h3 && isHexDig h4 then
          (k rest2).map
            (Char.ofNat (((hexVal h1 * 16 + hexVal h2) * 16 + hexVal h3) * 16 + hexVal h4) :: ·)
        else none
      | _ => none
    else if e = 'U' then
      match rest1 with
      | h1 :: h2 :: h3 :: h4 :: h5 :: h6 :: h7 :: h8 :: rest2 =>
        if isHexDig h1 && isHexDig h2 && isHexDig h3 && isHexDig h4 &&
           isHexDig h5 && isHexDig h6 && isHexDig h7 && isHexDig h8 then
          if hex8Val h1 h2 h3 h4 h5 h6 h7 h8 ≤ 1114111 then
            (k rest2).map (Char.ofNat (hex8Val h1 h2 h3 h4 h5 h6 h7 h8) :: ·)
          else none
        else none
      | _ => none
    else if e = 'N' then none
    else (k rest1).map (fun l => bslashChar :: e :: l)

/-- The decoding loop, structurally recursive on fuel; each step handles
one plain character or one whole escape sequence, so fuel exceeding the
input length never runs out (the wrapper below supplies it). -/
def unicodeEscapeDecodeF : Nat → List Char → Option (List Char)
  | 0, _ => none
  | _ + 1, [] => some []
  | fuel + 1, c :: rest =>
    if c = bslashChar then uniEscStep (unicodeEscapeDecodeF fuel) rest
    else (unicodeEscapeDecodeF fuel rest).map (c :: ·)

/-- The modelled PyUnicode_DecodeUnicodeEscape, with ample fuel. -/
def unicodeEscapeDecode (s : List Char) : Option (List Char) :=
  unicodeEscapeDecodeF (s.length + 1) s

/-- decode_unicode_with_escapes (string_parser.c lines 55 to 119): fail on
the 6-fold size overflow, otherwise run the pre-escape pass and hand the
result to the external unicode-escape decoder.  The spec names this
routine decode_text_with_escapes. -/
def decode_unicode_with_escapes (s : List Char) : Option (List Char) :=
  if SIZE_MAX / 6 < s.length then none
  else unicodeEscapeDecode (preEscape s)

/-- Modelled from the spec: PyBytes_DecodeEscape, the external CPython
bytes escape decoder called by decode_bytes_with_escapes (string_parser.c
lines 121 to 125); escapes per spec section 4.A: newline, tab, carriage
return, backslash, both quotes, octal up to three digits (reduced modulo
256 as a byte store), backslash-x with two hex digits, backslash-a, -b,
-f, -v; unknown escapes are preserved verbatim.  As for the text decoder,
the escape dispatch takes the continuation `k`. -/
def bytesEscStep (k : List Char → Option (List Char)) : List Char → Option (List Char)
  | [] => none
  | e :: rest1 =>
    if e = 'n' then (k rest1).map (Char.ofNat 10 :: ·)
    else if e = 't' then (k rest1).map (Char.ofNat 9 :: ·)
    else if e = 'r' then (k rest1).map (Char.ofNat 13 :: ·)
    else if e = bslashChar then (k rest1).map (bslashChar :: ·)
    else if e = squoteChar then (k rest1).map (squoteChar :: ·)
    else if e = dquoteChar then (k rest1).map (dquoteChar :: ·)
    else if e = 'a' then (k rest1).map (Char.ofNat 7 :: ·)
    else if e = 'b' then (k rest1).map (Char.ofNat 8 :: ·)
    else if e = 'f' then (k rest1).map (Char.ofNat 12 :: ·)
    else if e = 'v' then (k rest1).map (Char.ofNat 11 :: ·)
    else if isOctDig e then
      match rest1 with
      | d2 :: rest2 =>
        if isOctDig d2 then
          match rest2 with
          | d3 :: rest3 =>
            if isOctDig d3 then
              (k rest3).map
                (Char.ofNat ((octVal e * 64 + octVal d2 * 8 + octVal d3) % 256) :: ·)
            else (k (d3 :: rest3)).map (Char.ofNat (octVal e * 8 + octVal d2) :: ·)
          | [] => some [Char.ofNat (octVal e * 8 + octVal d2)]
        else (k (d2 :: rest2)).map (Char.ofNat (octVal e) :: ·)
      | [] => some [Char.ofNat (octVal e)]
    else if e = 'x' then
      match rest1 with
      | h1 :: h2 :: rest2 =>
        if isHexDig h1 && isHexDig h2 then
          (k rest2).map (Char.ofNat (hexVal h1 * 16 + hexVal h2) :: ·)
        else none
      | _ => none
    else (k rest1).map (fun l => bslashChar :: e :: l)

/-- The bytes decoding loop, structurally recursive on fuel. -/
def bytesEscDecodeF : Nat → List Char → Option (List Char)
  | 0, _ => none
  | _ + 1, [] => some []
  | fuel + 1, c :: rest =>
    if c = bslashChar then bytesEscStep (bytesEscDecodeF fuel) rest
    else (bytesEscDecodeF fuel rest).map (c :: ·)

/-- decode_bytes_with_escapes (string_parser.c lines 121 to 125), the
modelled PyBytes_DecodeEscape with ample fuel. -/
def decode_bytes_with_escapes (s : List Char) : Option (List Char) :=
  bytesEscDecodeF (s.length + 1) s

/-- Exit states of the scanning loop of fstring_find_literal
(string_parser.c lines 464 to 508).  `doubled` is the status-1 exit taken
for a doubled brace at recursion level 0 (literal ends just after the
first brace, cursor resumes past the second); `stopped` is the status-0
exit (end of input, or cursor left on the brace that ends the literal);
`singleErr` is the lone right brace error.  `lit` is the raw consumed
slice, before decoding. -/
inductive FLCore where
  | doubled (lit : List Char) (rest : List Char)
  | stopped (lit : List Char) (rest : List Char)
  | singleErr
deriving DecidableEq

/-- The brace handling of fstring_find_literal (string_parser.c lines 480
to 506), shared by the escaped and the plain path.  `accLit` is the
reversed literal consumed so far including the brace character `bc`;
`rest` is the input after `bc`; `restWithBc` is the input with the cursor
moved back onto `bc`, matching the s-- before the break. -/
def handleBrace (lvl : Nat) (accLit : List Char) (bc : Char)
    (rest restWithBc : List Char) : FLCore :=
  match lvl, rest with
  | 0, e :: s2 =>
    if e = bc then .doubled ((bc :: accLit).reverse) s2
    else if bc = rbraceChar then .singleErr
    else .stopped accLit.reverse restWithBc
  | 0, [] => if bc = rbraceChar then .singleErr else .stopped accLit.reverse restWithBc
  | _ + 1, _ => .stopped accLit.reverse restWithBc

/-- The scanning loop of fstring_find_literal (string_parser.c lines 464
to 508).  The Boolean argument is true while the loop is inside the
skip-to-right-brace inner loop of a backslash-N escape; `acc` holds the
consumed characters in reverse.  In non-raw mode a backslash consumes the
following character (the invalid-escape warning for an escaped left brace
is a warning only and does not alter control flow), backslash-N-brace
skips opaquely to the next right brace, and the brace logic applies to
the character after the backslash exactly as the C code applies it to the
reassigned ch. -/
def fstring_find_literal_core (raw : Bool) (lvl : Nat) :
    Bool → List Char → List Char → FLCore
  | _, acc, [] => .stopped acc.reverse []
  | true, acc, c :: s =>
    if c = rbraceChar then fstring_find_literal_core raw lvl false (c :: acc) s
    else fstring_find_literal_core raw lvl true (c :: acc) s
  | false, acc, c :: s =>
    if raw = false ∧ c = bslashChar then
      match s with
      | [] => .stopped (c :: acc).reverse []
      | d :: s1 =>
        if d = 'N' then
          match s1 with
          | e :: s2 =>
            if e = lbraceChar then
              fstring_find_literal_core raw lvl true (e :: d :: c :: acc) s2
            else .stopped (e :: d :: c :: acc).reverse s2
          | [] => .stopped (d :: c :: acc).reverse []
        else if d = lbraceChar ∨ d = rbraceChar then
          handleBrace lvl (c :: acc) d s1 (d :: s1)
        else fstring_find_literal_core raw lvl false (d :: c :: acc) s1
    else if c = lbraceChar ∨ c = rbraceChar then handleBrace lvl acc c s (c :: s)
    else fstring_find_literal_core raw lvl false (c :: acc) s

/-- The literal decoding at the end of fstring_find_literal
(string_parser.c lines 513 to 525): nothing for an empty slice, plain
UTF-8 decoding (the identity on the code-point model) in raw mode, the
escape decoder otherwise. -/
def fstring_literal_decode (raw : Bool) (lit : List Char) :
    Except ParseErr (Option (List Char)) :=
  if lit = [] then .ok none
  else if raw then .ok (some lit)
  else
    match decode_unicode_with_escapes lit with
    | some v => .ok (some v)
    | none => .error .decodeFail

/-- fstring_find_literal (string_parser.c lines 451 to 527).  The result
carries the decoded literal (none when empty), the remaining input (the
updated *str cursor), and the status 0 or 1. -/
def fstring_find_literal (raw : Bool) (lvl : Nat) (r : List Char) :
    Except ParseErr (Option (List Char) × List Char × Nat) :=
  match fstring_find_literal_core raw lvl false [] r with
  | .singleErr => .error (.syn msgSingleRbrace)
  | .doubled lit rest =>
    match fstring_literal_decode raw lit with
    | .error e => .error e
    | .ok l => .ok (l, rest, 1)
  | .stopped lit rest =>
    match fstring_literal_decode raw lit with
    | .error e => .error e
    | .ok l => .ok (l, rest, 0)

/-- Exit states of the scanning loop of fstring_find_expr
(string_parser.c lines 590 to 711).  `done` is the break at a top-level
terminator: `expr` is the scanned expression slice and `rest` the input
from the terminator on.  `finished` is a normal loop exit at end of
input, carrying the final nested-string and bracket state for the
post-loop checks.  `err` carries a RAISE_SYNTAX_ERROR message. -/
inductive ScanOut where
  | err (msg : String)
  | done (expr : List Char) (rest : List Char)
  | finished (expr : List Char) (qc : Option Char) (stack : List Char)
  | outOfFuel
deriving DecidableEq

/-- The scanning loop of fstring_find_expr (string_parser.c lines 590 to
711).  `acc` holds the consumed expression characters in reverse, `qc`
is quote_char (none when outside a nested string), `stype` is
string_type, `stack` is the bracket stack with its top first
(nested_depth is its length).  The first argument is fuel making the
loop structurally recursive; every iteration consumes at least one
character and one unit of fuel, so fuel exceeding the input length never
runs out (the wrapper below supplies it). -/
def scanExprAux : Nat → List Char → Option Char → Nat → List Char → List Char → ScanOut
  | 0, _, _, _, _, _ => .outOfFuel
  | _ + 1, acc, qc, _, stack, [] => .finished acc.reverse qc stack
  | fuel + 1, acc, qc, stype, stack, c :: s =>
    if c = bslashChar then .err msgBackslash
    else
      match qc with
      | some q =>
        if c = q then
          if stype = 3 then
            match s with
            | d :: e :: s2 =>
              if d = c ∧ e = c then scanExprAux fuel (e :: d :: c :: acc) none 0 stack s2
              else scanExprAux fuel (c :: acc) (some q) stype stack s
            | _ => scanExprAux fuel (c :: acc) (some q) stype stack s
          else scanExprAux fuel (c :: acc) none 0 stack s
        else scanExprAux fuel (c :: acc) (some q) stype stack s
      | none =>
        if c = squoteChar ∨ c = dquoteChar then
          match s with
          | d :: e :: s2 =>
            if d = c ∧ e = c then scanExprAux fuel (e :: d :: c :: acc) (some c) 3 stack s2
            else scanExprAux fuel (c :: acc) (some c) 1 stack s
          | _ => scanExprAux fuel (c :: acc) (some c) 1 stack s
        else if c = '[' ∨ c = lbraceChar ∨ c = '(' then
          if MAXLEVEL ≤ stack.length then .err msgTooManyNested
          else scanExprAux fuel (c :: acc) none stype (c :: stack) s
        else if c = '#' then .err msgHash
        else if stack.length = 0 ∧
            (c = '!' ∨ c = ':' ∨ c = rbraceChar ∨ c = '=' ∨ c = '>' ∨ c = '<') then
          match s with
          | d :: s1 =>
            if (c = '!' ∧ d = '=') ∨ (c = '=' ∧ d = '=') ∨
               (c = '<' ∧ d = '=') ∨ (c = '>' ∧ d = '=') then
              scanExprAux fuel (d :: c :: acc) none stype stack s1
            else if c = '>' ∨ c = '<' then scanExprAux fuel (c :: acc) none stype stack s
            else .done acc.reverse (c :: s)
          | [] => .done acc.reverse [c]
        else if c = ']' ∨ c = rbraceChar ∨ c = ')' then
          match stack with
          | [] => .err (msgUnmatched c)
          | op :: stackRest =>
            if (op = '(' ∧ c = ')') ∨ (op = '[' ∧ c = ']') ∨
               (op = lbraceChar ∧ c = rbraceChar) then
              scanExprAux fuel (c :: acc) none stype stackRest s
            else .err (msgClosingMismatch c op)
        else scanExprAux fuel (c :: acc) none stype stack s

/-- The scanning loop of fstring_find_expr started on a fresh state, with
ample fuel. -/
def scanExpr (r : List Char) : ScanOut :=
  scanExprAux (r.length + 1) [] none 0 [] r

/-- The produced AST expressions (spec section 3).  `conversion` is -1 or
the code of the conversion character, as in the C int field.  `external`
stands for whatever node the external embedded-expression parser
produced; it records the exact text handed to that parser.  Source spans
are not modelled (no claim concerns them). -/
inductive MysExpr where
  | constant (value : List Char) (kind : Option String)
  | formattedValue (value : MysExpr) (conversion : Int) (formatSpec : Option MysExpr)
  | joinedStr (values : List MysExpr)
  | external (source : List Char)

/-- The external embedded-expression parser (tokenizer plus
_Mys_PyPegen_run_parser): a function from the text handed to it to an
optional expression node, none meaning a parse failure. -/
def ExprParserFn : Type := List Char → Option MysExpr

/-- fstring_compile_expr (string_parser.c lines 353 to 441): reject an
all-whitespace expression (space, tab, newline, form feed), then hand the
expression wrapped in parentheses to the external expression parser.
The scratch-buffer layout, the source-location mapping
(fstring_find_expr_location) and the construction of the inner tokenizer
and parser are location and memory bookkeeping with no observable effect
in the model. -/
def fstring_compile_expr (rp : ExprParserFn) (expr : List Char) :
    Except ParseErr MysExpr :=
  if expr.all fun ch => ch == ' ' || ch == Char.ofNat 9 || ch == Char.ofNat 10 ||
      ch == Char.ofNat 12 then
    .error (.syn msgEmptyExpr)
  else
    match rp ('(' :: expr ++ [')']) with
    | some e => .ok e
    | none => .error .exprParseFail

/-- Py_ISSPACE, used by the self-documenting-expression whitespace skip. -/
def isPySpace (c : Char) : Bool :=
  c == ' ' || c == Char.ofNat 9 || c == Char.ofNat 10 || c == Char.ofNat 11 ||
    c == Char.ofNat 12 || c == Char.ofNat 13

/-- The FstringParser state (Mys-string_parser.h): the pending literal,
the fmode flag, and the expression list.  The expression list is a plain
list; the small-buffer optimization of ExprList is a performance hint
with no observable effect. -/
structure FPState where
  lastStr : Option (List Char)
  fmode : Bool
  exprList : List MysExpr

/-- make_str_node_and_del (string_parser.c lines 1046 to 1069): build a
Constant from the accumulated literal; the kind field is the identifier
u exactly when the first byte of the first token is the lower-case
letter u. -/
def make_str_node (tokBytes : List Char) (s : List Char) : MysExpr :=
  .constant s (if peekc tokBytes = 'u' then some "u" else none)

/-- _Mys_PyPegen_FstringParser_ConcatAndDel (string_parser.c lines 1074
to 1098): drop an empty string, otherwise append to the pending
literal. -/
def FstringParser_ConcatAndDel (st : FPState) (s : List Char) : FPState :=
  if s = [] then st
  else
    match st.lastStr with
    | none => { st with lastStr := some s }
    | some prev => { st with lastStr := some (prev ++ s) }

/-- Apply ConcatAndDel to an optional string (a NULL literal pointer is
simply absent). -/
def applyLitOpt (st : FPState) : Option (List Char) → FPState
  | none => st
  | some s => FstringParser_ConcatAndDel st s

/-- The flush of the pending literal into the expression list performed
by ConcatFstring when an expression arrives (string_parser.c lines 1155
to 1163). -/
def flushLast (st : FPState) (tokBytes : List Char) : FPState :=
  match st.lastStr with
  | none => st
  | some s =>
    { st with lastStr := none, exprList := st.exprList ++ [make_str_node tokBytes s] }

/-- Appending an expression to the expression list (ExprList_Append). -/
def pushExpr (st : FPState) (e : MysExpr) : FPState :=
  { st with exprList := st.exprList ++ [e] }

/-- _Mys_PyPegen_FstringParser_Finish (string_parser.c lines 1188 to
1232): when fmode is unset, a single Constant from the pending literal
(empty if none); when fmode is set, flush the pending literal and wrap
the expression list in a JoinedStr. -/
def FstringParser_Finish (st : FPState) (tokBytes : List Char) : MysExpr :=
  if st.fmode = false then make_str_node tokBytes (st.lastStr.getD [])
  else
    match st.lastStr with
    | some s => .joinedStr (st.exprList ++ [make_str_node tokBytes s])
    | none => .joinedStr st.exprList

/-- Result of fstring_find_literal_and_expr: decoded literal, optional
self-documenting text, optional FormattedValue, remaining input, and the
status (1 for the doubled-brace resume). -/
structure FLEOut where
  literal : Option (List Char)
  exprText : Option (List Char)
  expression : Option MysExpr
  rest : List Char
  status : Nat

/-- fstring_find_expr (string_parser.c lines 549 to 837), parameterized
by the parse of a nested format spec (fstring_parse at the next recursion
level), which breaks the mutual recursion: recursion levels are bounded
by 2, so the instances below are built level by level.  Returns the
self-documenting text (if any), the FormattedValue node, and the
remaining input past the closing brace. -/
def fstring_find_expr_with
    (parseFmt : List Char → Except ParseErr (MysExpr × List Char))
    (rp : ExprParserFn) (fv : Nat) (lvl : Nat) (r : List Char) :
    Except ParseErr (Option (List Char) × MysExpr × List Char) :=
  if 2 ≤ lvl then .error (.syn msgNestedTooDeep)
  else
    match scanExpr (r.drop 1) with
    | .outOfFuel => .error .fuelOut
    | .err m => .error (.syn m)
    | .finished _ qc stack =>
      if qc.isSome then .error (.syn msgUnterminatedString)
      else if stack ≠ [] then .error (.syn (msgUnmatched (peekc stack)))
      else .error (.syn msgExpectRbrace)
    | .done expr rest =>
      match fstring_compile_expr rp expr with
      | .error e => .error e
      | .ok simpleExpr =>
        if peekc rest = '=' ∧ fv < 8 then .error (.syn msgSelfDoc)
        else
          let et : Option (List Char) × List Char :=
            if peekc rest = '=' then
              let r1 := rest.drop 1
              (some (expr ++ '=' :: r1.takeWhile isPySpace), r1.dropWhile isPySpace)
            else (none, rest)
          match et with
          | (exprText, r2) =>
            let cv : Except ParseErr (Int × List Char) :=
              if peekc r2 = '!' then
                let r3 := r2.drop 1
                if r3 = [] then .error (.syn msgExpectRbrace)
                else
                  let conv := peekc r3
                  if conv = 's' ∨ conv = 'r' ∨ conv = 'a' then
                    .ok ((conv.toNat : Int), r3.drop 1)
                  else .error (.syn msgInvalidConversion)
              else .ok ((-1 : Int), r2)
            match cv with
            | .error e => .error e
            | .ok (conversion, r3) =>
              if r3 = [] then .error (.syn msgExpectRbrace)
              else
                let fs : Except ParseErr (Option MysExpr × List Char) :=
                  if peekc r3 = ':' then
                    let r4 := r3.drop 1
                    if r4 = [] then .error (.syn msgExpectRbrace)
                    else
                      match parseFmt r4 with
                      | .error e => .error e
                      | .ok (sp, r5) => .ok (some sp, r5)
                  else .ok (none, r3)
                match fs with
                | .error e => .error e
                | .ok (formatSpec, r4) =>
                  if r4 = [] ∨ peekc r4 ≠ rbraceChar then .error (.syn msgExpectRbrace)
                  else
                    let conversion :=
                      if exprText.isSome ∧ formatSpec.isNone ∧ conversion = -1 then
                        (114 : Int)
                      else conversion
                    .ok (exprText, .formattedValue simpleExpr conversion formatSpec,
                         r4.drop 1)

/-- fstring_find_literal_and_expr (string_parser.c lines 862 to 906),
with the expression finder passed in. -/
def fstring_find_literal_and_expr
    (findE : List Char → Except ParseErr (Option (List Char) × MysExpr × List Char))
    (raw : Bool) (lvl : Nat) (r : List Char) : Except ParseErr FLEOut :=
  match fstring_find_literal raw lvl r with
  | .error e => .error e
  | .ok (lit, r1, status) =>
    if status = 1 then .ok ⟨lit, none, none, r1, 1⟩
    else if r1 = [] ∨ peekc r1 = rbraceChar then .ok ⟨lit, none, none, r1, 0⟩
    else
      match findE r1 with
      | .error e => .error e
      | .ok (etext, e, r2) => .ok ⟨lit, etext, some e, r2, 0⟩

/-- The end-of-loop position checks of ConcatFstring (string_parser.c
lines 1170 to 1180): at level 0 the cursor must be within one byte of the
end; deeper, it must sit on a right brace. -/
def concatEndCheck (lvl : Nat) (st : FPState) (r : List Char) :
    Except ParseErr (FPState × List Char) :=
  if lvl = 0 ∧ 1 < r.length then .error (.syn msgUnexpectedEnd)
  else if lvl ≠ 0 ∧ peekc r ≠ rbraceChar then .error (.syn msgExpectRbrace)
  else .ok (st, r)

/-- The main loop of _Mys_PyPegen_FstringParser_ConcatFstring
(string_parser.c lines 1111 to 1168), with the literal-and-expression
finder passed in and fuel making it structurally recursive.  Each
iteration appends the literal and the self-documenting text to the
pending literal; on status 1 it resumes; with no expression it performs
the end checks; otherwise it flushes the pending literal, appends the
FormattedValue and resumes. -/
def concatLoopWith (fle : List Char → Except ParseErr FLEOut) (lvl : Nat)
    (tokBytes : List Char) : Nat → FPState → List Char →
    Except ParseErr (FPState × List Char)
  | 0, _, _ => .error .fuelOut
  | fuel + 1, st, r =>
    match fle r with
    | .error e => .error e
    | .ok o =>
      let st1 := applyLitOpt (applyLitOpt st o.literal) o.exprText
      if o.status = 1 then concatLoopWith fle lvl tokBytes fuel st1 o.rest
      else
        match o.expression with
        | none => concatEndCheck lvl st1 o.rest
        | some e =>
          concatLoopWith fle lvl tokBytes fuel (pushExpr (flushLast st1 tokBytes) e) o.rest

/-- _Mys_PyPegen_FstringParser_ConcatFstring (string_parser.c lines 1103
to 1184): set fmode and run the loop. -/
def concatFstringWith (fle : List Char → Except ParseErr FLEOut) (lvl : Nat)
    (tokBytes : List Char) (fuel : Nat) (st : FPState) (r : List Char) :
    Except ParseErr (FPState × List Char) :=
  concatLoopWith fle lvl tokBytes fuel { st with fmode := true } r

/-- fstring_parse (string_parser.c lines 1237 to 1251), with the
literal-and-expression finder passed in: a fresh state, ConcatFstring,
Finish.  Returns the node and the remaining input. -/
def fstring_parse_with (fle : List Char → Except ParseErr FLEOut) (lvl : Nat)
    (tokBytes : List Char) (fuel : Nat) (r : List Char) :
    Except ParseErr (MysExpr × List Char) :=
  match concatFstringWith fle lvl tokBytes fuel ⟨none, false, []⟩ r with
  | .error e => .error e
  | .ok (st, r1) => .ok (FstringParser_Finish st tokBytes, r1)

/-- A format-spec parse that is never consulted: fstring_find_expr at
recursion level 2 fails on entry before it could recurse. -/
def parseFmtUnused : List Char → Except ParseErr (MysExpr × List Char) :=
  fun _ => .error .fuelOut

/-- fstring_find_expr at recursion level 2 (always the nested-too-deep
error). -/
def fstring_find_expr_lvl2 (rp : ExprParserFn) (fv : Nat) :
    List Char → Except ParseErr (Option (List Char) × MysExpr × List Char) :=
  fstring_find_expr_with parseFmtUnused rp fv 2

/-- fstring_find_literal_and_expr at recursion level 2. -/
def fle_lvl2 (rp : ExprParserFn) (fv : Nat) (raw : Bool) :
    List Char → Except ParseErr FLEOut :=
  fstring_find_literal_and_expr (fstring_find_expr_lvl2 rp fv) raw 2

/-- fstring_parse at recursion level 2 (reached from a format spec inside
a format spec; only an embedded expression there is rejected). -/
def fstring_parse_lvl2 (rp : ExprParserFn) (fv : Nat) (raw : Bool)
    (tokBytes : List Char) (fuel : Nat) :
    List Char → Except ParseErr (MysExpr × List Char) :=
  fstring_parse_with (fle_lvl2 rp fv raw) 2 tokBytes fuel

/-- fstring_find_expr at recursion level 1. -/
def fstring_find_expr_lvl1 (rp : ExprParserFn) (fv : Nat) (raw : Bool)
    (tokBytes : List Char) (fuel : Nat) :
    List Char → Except ParseErr (Option (List Char) × MysExpr × List Char) :=
  fstring_find_expr_with (fstring_parse_lvl2 rp fv raw tokBytes fuel) rp fv 1

/-- fstring_find_literal_and_expr at recursion level 1. -/
def fle_lvl1 (rp : ExprParserFn) (fv : Nat) (raw : Bool) (tokBytes : List Char)
    (fuel : Nat) : List Char → Except ParseErr FLEOut :=
  fstring_find_literal_and_expr (fstring_find_expr_lvl1 rp fv raw tokBytes fuel) raw 1

/-- fstring_parse at recursion level 1 (the parse of a format spec). -/
def fstring_parse_lvl1 (rp : ExprParserFn) (fv : Nat) (raw : Bool)
    (tokBytes : List Char) (fuel : Nat) :
    List Char → Except ParseErr (MysExpr × List Char) :=
  fstring_parse_with (fle_lvl1 rp fv raw tokBytes fuel) 1 tokBytes fuel

/-- fstring_find_expr at recursion level 0. -/
def fstring_find_expr_lvl0 (rp : ExprParserFn) (fv : Nat) (raw : Bool)
    (tokBytes : List Char) (fuel : Nat) :
    List Char → Except ParseErr (Option (List Char) × MysExpr × List Char) :=
  fstring_find_expr_with (fstring_parse_lvl1 rp fv raw tokBytes fuel) rp fv 0

/-- fstring_find_literal_and_expr at recursion level 0. -/
def fle_lvl0 (rp : ExprParserFn) (fv : Nat) (raw : Bool) (tokBytes : List Char)
    (fuel : Nat) : List Char → Except ParseErr FLEOut :=
  fstring_find_literal_and_expr (fstring_find_expr_lvl0 rp fv raw tokBytes fuel) raw 0

/-- _Mys_PyPegen_FstringParser_ConcatFstring at recursion level 0, as the
grammar action drives it on the stripped body of one f-string token. -/
def FstringParser_ConcatFstring (rp : ExprParserFn) (fv : Nat) (raw : Bool)
    (tokBytes : List Char) (fuel : Nat) (st : FPState) (r : List Char) :
    Except ParseErr (FPState × List Char) :=
  concatFstringWith (fle_lvl0 rp fv raw tokBytes fuel) 0 tokBytes fuel st r

/-- Driving the f-string assembler on the body of a single f-string
token: FstringParser_Init, then ConcatFstring, then Finish, as the
caller of parsestr does for an f-string. -/
def driveFstring (rp : ExprParserFn) (fv : Nat) (raw : Bool)
    (tokBytes : List Char) (fuel : Nat) (body : List Char) :
    Except ParseErr MysExpr :=
  match FstringParser_ConcatFstring rp fv raw tokBytes fuel ⟨none, false, []⟩ body with
  | .error e => .error e
  | .ok (st, _) => .ok (FstringParser_Finish st tokBytes)

/-- Py_ISALPHA on a byte. -/
def isAsciiLetter (c : Char) : Bool :=
  (65 ≤ c.toNat && c.toNat ≤ 90) || (97 ≤ c.toNat && c.toNat ≤ 122)

/-- The prefix-letter loop of parsestr (string_parser.c lines 155 to
186).  The list argument has the current quote candidate at its head;
the loop runs while at least one of bytesmode, rawmode, remode, cmode is
unset, consuming recognized flag letters (with e or E recognized as the
regex sub-flag right after r or R) and stopping at the first
unrecognized character.  Returns (bytesmode, rawmode, remode, cmode,
fmode) and the rest of the token. -/
def prefixFlagsLoop (b r re c f : Bool) :
    List Char → (Bool × Bool × Bool × Bool × Bool) × List Char
  | [] => ((b, r, re, c, f), [])
  | q :: s =>
    if b ∧ r ∧ re ∧ c then ((b, r, re, c, f), q :: s)
    else if q = 'b' ∨ q = 'B' then prefixFlagsLoop true r re c f s
    else if q = 'u' ∨ q = 'U' then prefixFlagsLoop b r re c f s
    else if q = 'r' ∨ q = 'R' then
      match s with
      | e :: s1 =>
        if e = 'e' ∨ e = 'E' then prefixFlagsLoop b true true c f s1
        else prefixFlagsLoop b true re c f (e :: s1)
      | [] => ((b, true, re, c, f), [])
    else if q = 'f' ∨ q = 'F' then prefixFlagsLoop b r re c true s
    else if q = 'c' ∨ q = 'C' then prefixFlagsLoop b true re true f s
    else ((b, r, re, c, f), q :: s)

/-- The prefix recognition of parsestr: the loop runs only when the first
byte is an ASCII letter. -/
def parsestrPrefix (tok : List Char) :
    (Bool × Bool × Bool × Bool × Bool) × List Char :=
  if isAsciiLetter (peekc tok) then
    prefixFlagsLoop false false false false false tok
  else ((false, false, false, false, false), tok)

/-- The decoded value of a non-f-string token. -/
inductive StrValue where
  | text (s : List Char)
  | bytes (b : List Char)
deriving DecidableEq

/-- The out-parameters of _Mys_PyPegen_parsestr on success. -/
structure ParsestrOk where
  bytesmode : Bool
  rawmode : Bool
  remode : Bool
  cmode : Bool
  is_char : Bool
  result : Option StrValue
  fstr : Option (List Char)
  reflags : Option (List Char)
deriving DecidableEq

/-- The tail of parsestr after quote stripping (string_parser.c lines 253
to 291): return the raw body for an f-string; otherwise turn on rawmode
when the rest of the buffer holds no backslash (strchr scans the body
plus closing quotes, which are never backslashes) and decode: for bytes
mode first reject non-ASCII bytes, then raw bytes or the bytes escape
decoder; for text, plain UTF-8 (the identity here) or the unicode escape
decoder. -/
def parsestrBody (bm rm rem cm isChar fm : Bool) (body : List Char)
    (reflags : Option (List Char)) : Except ParseErr ParsestrOk :=
  if fm then .ok ⟨bm, rm, rem, cm, isChar, none, some body, reflags⟩
  else
    let rawmode := rm || !(body.contains bslashChar)
    if bm then
      if body.any (fun ch => 128 ≤ ch.toNat) then .error (.syn msgBytesAscii)
      else if rawmode then
        .ok ⟨bm, rawmode, rem, cm, isChar, some (.bytes body), none, reflags⟩
      else
        match decode_bytes_with_escapes body with
        | some v => .ok ⟨bm, rawmode, rem, cm, isChar, some (.bytes v), none, reflags⟩
        | none => .error .decodeFail
    else
      if rawmode then
        .ok ⟨bm, rawmode, rem, cm, isChar, some (.text body), none, reflags⟩
      else
        match decode_unicode_with_escapes body with
        | some v => .ok ⟨bm, rawmode, rem, cm, isChar, some (.text v), none, reflags⟩
        | none => .error .decodeFail

/-- _Mys_PyPegen_parsestr (string_parser.c lines 132 to 292).  The two
places where the C code would read before the buffer on a malformed
token that the tokenizer can never produce (a regex literal with no
closing quote at all, and a token whose remaining length is zero at the
closing-quote check) are modelled as the bad-internal-call error the
surrounding checks produce on every nearby malformed input. -/
def parsestr (fv : Nat) (tok : List Char) : Except ParseErr ParsestrOk :=
  match parsestrPrefix tok with
  | ((bm, rm, rem, cm, fm), s) =>
    let quote := peekc s
    if quote = squoteChar ∧ (fm ∨ bm ∨ rm ∨ rem ∨ cm) then
      .error (.syn msgPrefixOnChar)
    else
      let isChar := quote = squoteChar
      if fm ∧ fv < 6 then .error (.syn msgFstringVersion)
      else if fm ∧ bm then .error .badInternalCall
      else if quote ≠ squoteChar ∧ quote ≠ dquoteChar then .error .badInternalCall
      else
        let s1 := s.drop 1
        let len := s1.length
        if INT_MAX < len then .error .overflowTooLong
        else
          let flagslen :=
            if rem then (s1.reverse.takeWhile (fun ch => ch ≠ quote)).length else 0
          if rem ∧ flagslen = len then .error .badInternalCall
          else
            let reflags := if rem then some (s1.drop (len - flagslen)) else none
            let s2 := s1.take (len - flagslen)
            if s2.getLast? ≠ some quote then .error .badInternalCall
            else
              let s3 := s2.dropLast
              if 4 ≤ s3.length ∧ peekc s3 = quote ∧ peekc (s3.drop 1) = quote then
                if isChar then .error (.syn msgTripleChar)
                else
                  let s4 := s3.drop 2
                  if s4.getLast? ≠ some quote then .error .badInternalCall
                  else if s4.dropLast.getLast? ≠ some quote then .error .badInternalCall
                  else parsestrBody bm rm rem cm isChar fm s4.dropLast.dropLast reflags
              else parsestrBody bm rm rem cm isChar fm s3 reflags

/-- A concrete model of the external embedded-expression parser: it
records the text it was handed. -/
def rpModel : ExprParserFn := fun s => some (.external s)

/-- Whether an assembler run produced a Constant node. -/
def isConstantResult : Except ParseErr MysExpr → Bool
  | .ok (.constant _ _) => true
  | _ => false

/-- Whether a result is a syntax error (RAISE_SYNTAX_ERROR), as opposed
to a bad internal call, overflow or decode failure. -/
def isSynErr {α : Type} : Except ParseErr α → Bool
  | .error (.syn _) => true
  | _ => false

/-- The kind field of a Constant node, absent on every other node. -/
def kindOf : MysExpr → Option String
  | .constant _ k => k
  | _ => none

/-- A literal character that takes the plain path of the literal scanner:
neither a backslash nor a brace. -/
def simpleLitChar (c : Char) : Prop :=
  c ≠ bslashChar ∧ c ≠ lbraceChar ∧ c ≠ rbraceChar

instance (c : Char) : Decidable (simpleLitChar c) := by
  unfold simpleLitChar
  infer_instance

/-- Token bytes of the literal f-string with body of two doubled braces. -/
def fTokC1 : List Char :=
  'f' :: dquoteChar :: lbraceChar :: lbraceChar :: rbraceChar :: rbraceChar ::
    dquoteChar :: []

/-- The body of two doubled braces. -/
def bodyC1 : List Char :=
  lbraceChar :: lbraceChar :: rbraceChar :: rbraceChar :: []

/-- The un-doubled text of bodyC1. -/
def undoubledC1 : List Char := lbraceChar :: rbraceChar :: []

/-- The body of the second spec example, doubled braces around text. -/
def bodyC1b : List Char :=
  lbraceChar :: lbraceChar :: ('n' :: 'o' :: 't' :: ' ' :: 'a' :: 'n' :: ' ' ::
    'e' :: 'x' :: 'p' :: 'r' :: []) ++ rbraceChar :: rbraceChar :: []

/-- The un-doubled text of bodyC1b. -/
def undoubledC1b : List Char :=
  lbraceChar :: ('n' :: 'o' :: 't' :: ' ' :: 'a' :: 'n' :: ' ' ::
    'e' :: 'x' :: 'p' :: 'r' :: []) ++ rbraceChar :: []

/-- Token bytes of the second spec example. -/
def fTokC1b : List Char := 'f' :: dquoteChar :: bodyC1b ++ [dquoteChar]

/-- A token whose prefix starts with upper-case U. -/
def tokC5 : List Char := 'U' :: dquoteChar :: 'x' :: dquoteChar :: []

/-- A double-quoted token with both the f and the b prefix letters. -/
def tokC6 : List Char := 'f' :: 'b' :: dquoteChar :: dquoteChar :: []

/-- Whether `sub` occurs as a contiguous run inside the second list (the
sense in which an error message contains a quoted fragment). -/
def hasSubstr (sub : List Char) : List Char → Bool
  | [] => sub.isPrefixOf []
  | c :: s => sub.isPrefixOf (c :: s) || hasSubstr sub (s : List Char)

theorem hexVal_hexDigitChr : ∀ d < 16, hexVal (hexDigitChr d) = d := by decide

theorem isHexDig_hexDigitChr : ∀ d < 16, isHexDig (hexDigitChr d) = true := by decide

theorem hex8Val_toHex8 (n : Nat) (h : n < 4294967296) :
    hex8Val (hexDigitChr (n / 268435456 % 16)) (hexDigitChr (n / 16777216 % 16))
      (hexDigitChr (n / 1048576 % 16)) (hexDigitChr (n / 65536 % 16))
      (hexDigitChr (n / 4096 % 16)) (hexDigitChr (n / 256 % 16))
      (hexDigitChr (n / 16 % 16)) (hexDigitChr (n % 16)) = n := by
  unfold hex8Val
  rw [hexVal_hexDigitChr _ (Nat.mod_lt _ (by norm_num)),
    hexVal_hexDigitChr _ (Nat.mod_lt _ (by norm_num)),
    hexVal_hexDigitChr _ (Nat.mod_lt _ (by norm_num)),
    hexVal_hexDigitChr _ (Nat.mod_lt _ (by norm_num)),
    hexVal_hexDigitChr _ (Nat.mod_lt _ (by norm_num)),
    hexVal_hexDigitChr _ (Nat.mod_lt _ (by norm_num)),
    hexVal_hexDigitChr _ (Nat.mod_lt _ (by norm_num)),
    hexVal_hexDigitChr _ (Nat.mod_lt _ (by norm_num))]
  omega

theorem char_toNat_lt (c : Char) : c.toNat < 4294967296 := by
  have e : c.toNat = c.val.toNat := rfl
  rcases c.valid with h | h <;> omega

theorem char_toNat_le (c : Char) : c.toNat ≤ 1114111 := by
  have e : c.toNat = c.val.toNat := rfl
  rcases c.valid with h | h <;> omega

theorem uniEscStep_U (k : List Char → Option (List Char))
    (h1 h2 h3 h4 h5 h6 h7 h8 : Char) (t : List Char)
    (e1 : isHexDig h1 = true) (e2 : isHexDig h2 = true) (e3 : isHexDig h3 = true)
    (e4 : isHexDig h4 = true) (e5 : isHexDig h5 = true) (e6 : isHexDig h6 = true)
    (e7 : isHexDig h7 = true) (e8 : isHexDig h8 = true)
    (hv : hex8Val h1 h2 h3 h4 h5 h6 h7 h8 ≤ 1114111) :
    uniEscStep k ('U' :: h1 :: h2 :: h3 :: h4 :: h5 :: h6 :: h7 :: h8 :: t) =
      (k t).map (Char.ofNat (hex8Val h1 h2 h3 h4 h5 h6 h7 h8) :: ·) := by
  have step : uniEscStep k ('U' :: h1 :: h2 :: h3 :: h4 :: h5 :: h6 :: h7 :: h8 :: t) =
      (if isHexDig h1 && isHexDig h2 && isHexDig h3 && isHexDig h4 &&
          isHexDig h5 && isHexDig h6 && isHexDig h7 && isHexDig h8 then
        if hex8Val h1 h2 h3 h4 h5 h6 h7 h8 ≤ 1114111 then
          (k t).map (Char.ofNat (hex8Val h1 h2 h3 h4 h5 h6 h7 h8) :: ·)
        else none
      else none) := rfl
  rw [step, e1, e2, e3, e4, e5, e6, e7, e8]
  simp [hv]

theorem unicodeEscapeDecodeF_cons (fuel : Nat) (c : Char) (t : List Char)
    (hc : ¬c = bslashChar) :
    unicodeEscapeDecodeF (fuel + 1) (c :: t) =
      (unicodeEscapeDecodeF fuel t).map (c :: ·) := by
  have step : unicodeEscapeDecodeF (fuel + 1) (c :: t) =
      if c = bslashChar then uniEscStep (unicodeEscapeDecodeF fuel) t
      else (unicodeEscapeDecodeF fuel t).map (c :: ·) := rfl
  rw [step, if_neg hc]

theorem unicodeEscapeDecodeF_escU (fuel : Nat) (c : Char) (t : List Char) :
    unicodeEscapeDecodeF (fuel + 1) (escU c ++ t) =
      (unicodeEscapeDecodeF fuel t).map (c :: ·) := by
  have h16 : ∀ k : Nat, c.toNat / k % 16 < 16 := fun _ => Nat.mod_lt _ (by norm_num)
  have hm : c.toNat % 16 < 16 := Nat.mod_lt _ (by norm_num)
  have step : unicodeEscapeDecodeF (fuel + 1) (escU c ++ t) =
      uniEscStep (unicodeEscapeDecodeF fuel)
        ('U' :: hexDigitChr (c.toNat / 268435456 % 16) ::
          hexDigitChr (c.toNat / 16777216 % 16) :: hexDigitChr (c.toNat / 1048576 % 16) ::
          hexDigitChr (c.toNat / 65536 % 16) :: hexDigitChr (c.toNat / 4096 % 16) ::
          hexDigitChr (c.toNat / 256 % 16) :: hexDigitChr (c.toNat / 16 % 16) ::
          hexDigitChr (c.toNat % 16) :: t) := rfl
  rw [step, uniEscStep_U _ _ _ _ _ _ _ _ _ t
      (isHexDig_hexDigitChr _ (h16 268435456)) (isHexDig_hexDigitChr _ (h16 16777216))
      (isHexDig_hexDigitChr _ (h16 1048576)) (isHexDig_hexDigitChr _ (h16 65536))
      (isHexDig_hexDigitChr _ (h16 4096)) (isHexDig_hexDigitChr _ (h16 256))
      (isHexDig_hexDigitChr _ (h16 16)) (isHexDig_hexDigitChr _ hm)
      (by rw [hex8Val_toHex8 c.toNat (char_toNat_lt c)]; exact char_toNat_le c),
    hex8Val_toHex8 c.toNat (char_toNat_lt c), Char.ofNat_toNat]

theorem unicodeEscapeDecodeF_preEscape :
    ∀ (s : List Char) (fuel : Nat), bslashChar ∉ s → s.length < fuel →
      unicodeEscapeDecodeF fuel (preEscape s) = some s := by
  intro s
  induction s with
  | nil =>
    intro fuel _ hf
    obtain ⟨f, rfl⟩ : ∃ f, fuel = f + 1 := ⟨fuel - 1, by omega⟩
    rfl
  | cons c rest ih =>
    intro fuel h hf
    obtain ⟨f, rfl⟩ : ∃ f, fuel = f + 1 := ⟨fuel - 1, by omega⟩
    have hc : ¬c = bslashChar := fun e => h (by simp [e])
    have hr : bslashChar ∉ rest := fun m => h (List.mem_cons_of_mem _ m)
    have hlen : rest.length < f := by
      simp only [List.length_cons] at hf
      omega
    rw [preEscape.eq_def]
    simp only [if_neg hc]
    by_cases hh : 128 ≤ c.toNat
    · rw [if_pos hh, unicodeEscapeDecodeF_escU, ih f hr hlen]
      rfl
    · rw [if_neg hh, unicodeEscapeDecodeF_cons f c _ hc, ih f hr hlen]
      rfl

theorem preEscape_length (s : List Char) (h : bslashChar ∉ s) :
    s.length ≤ (preEscape s).length := by
  induction s with
  | nil => simp [preEscape]
  | cons c rest ih =>
    have hc : ¬c = bslashChar := fun e => h (by simp [e])
    have hr : bslashChar ∉ rest := fun m => h (List.mem_cons_of_mem _ m)
    have ihr := ih hr
    rw [preEscape.eq_def]
    simp only [if_neg hc]
    by_cases hh : 128 ≤ c.toNat
    · rw [if_pos hh]
      simp only [escU, toHex8, List.length_append, List.length_cons, List.length_nil]
      omega
    · rw [if_neg hh]
      simp only [List.length_cons]
      omega

theorem unicodeEscapeDecode_preEscape (s : List Char) (h : bslashChar ∉ s) :
    unicodeEscapeDecode (preEscape s) = some s :=
  unicodeEscapeDecodeF_preEscape s _ h
    (by have := preEscape_length s h; omega)

theorem decode_unicode_with_escapes_id (s : List Char) (h : bslashChar ∉ s)
    (hl : s.length ≤ SIZE_MAX / 6) : decode_unicode_with_escapes s = some s := by
  unfold decode_unicode_with_escapes
  rw [if_neg (by omega)]
  exact unicodeEscapeDecode_preEscape s h

theorem bytesEscDecodeF_cons (fuel : Nat) (c : Char) (t : List Char)
    (hc : ¬c = bslashChar) :
    bytesEscDecodeF (fuel + 1) (c :: t) = (bytesEscDecodeF fuel t).map (c :: ·) := by
  have step : bytesEscDecodeF (fuel + 1) (c :: t) =
      if c = bslashChar then bytesEscStep (bytesEscDecodeF fuel) t
      else (bytesEscDecodeF fuel t).map (c :: ·) := rfl
  rw [step, if_neg hc]

theorem bytesEscDecodeF_id :
    ∀ (s : List Char) (fuel : Nat), bslashChar ∉ s → s.length < fuel →
      bytesEscDecodeF fuel s = some s := by
  intro s
  induction s with
  | nil =>
    intro fuel _ hf
    obtain ⟨f, rfl⟩ : ∃ f, fuel = f + 1 := ⟨fuel - 1, by omega⟩
    rfl
  | cons c rest ih =>
    intro fuel h hf
    obtain ⟨f, rfl⟩ : ∃ f, fuel = f + 1 := ⟨fuel - 1, by omega⟩
    have hc : ¬c = bslashChar := fun e => h (by simp [e])
    have hr : bslashChar ∉ rest := fun m => h (List.mem_cons_of_mem _ m)
    have hlen : rest.length < f := by
      simp only [List.length_cons] at hf
      omega
    rw [bytesEscDecodeF_cons f c _ hc, ih f hr hlen]
    rfl

theorem decode_bytes_with_escapes_id (s : List Char) (h : bslashChar ∉ s) :
    decode_bytes_with_escapes s = some s :=
  bytesEscDecodeF_id s _ h (by omega)

theorem core_step_plain (raw : Bool) (lvl : Nat) (acc : List Char) (c : Char)
    (s : List Char) (h1 : c ≠ bslashChar) (h2 : c ≠ lbraceChar) (h3 : c ≠ rbraceChar) :
    fstring_find_literal_core raw lvl false acc (c :: s) =
      fstring_find_literal_core raw lvl false (c :: acc) s := by
  rw [fstring_find_literal_core.eq_def]
  simp only [if_neg (fun hh : raw = false ∧ c = bslashChar => h1 hh.2),
    if_neg (fun hh : c = lbraceChar ∨ c = rbraceChar => hh.elim h2 h3)]

theorem core_step_brace (raw : Bool) (lvl : Nat) (acc : List Char) (c : Char)
    (s : List Char) (h1 : c ≠ bslashChar) (hb : c = lbraceChar ∨ c = rbraceChar) :
    fstring_find_literal_core raw lvl false acc (c :: s) =
      handleBrace lvl acc c s (c :: s) := by
  rw [fstring_find_literal_core.eq_def]
  simp only [if_neg (fun hh : raw = false ∧ c = bslashChar => h1 hh.2), if_pos hb]

theorem core_walk (raw : Bool) (lvl : Nat) :
    ∀ (pre acc r : List Char), (∀ c ∈ pre, simpleLitChar c) →
      fstring_find_literal_core raw lvl false acc (pre ++ r) =
        fstring_find_literal_core raw lvl false (pre.reverse ++ acc) r := by
  intro pre
  induction pre with
  | nil => intro acc r _; simp
  | cons c pre ih =>
    intro acc r h
    obtain ⟨h1, h2, h3⟩ := h c (by simp)
    rw [List.cons_append, core_step_plain raw lvl acc c _ h1 h2 h3,
      ih (c :: acc) r (fun x hx => h x (List.mem_cons_of_mem _ hx))]
    simp [List.append_assoc]

theorem literal_decode_some (raw : Bool) (lit : List Char) (hne : lit ≠ [])
    (hnb : bslashChar ∉ lit) (hlen : lit.length ≤ SIZE_MAX / 6) :
    fstring_literal_decode raw lit = .ok (some lit) := by
  unfold fstring_literal_decode
  rw [if_neg hne]
  cases raw with
  | true => rfl
  | false =>
    simp only [Bool.false_eq_true, if_false]
    rw [decode_unicode_with_escapes_id lit hnb hlen]

theorem find_literal_doubled (raw : Bool) (pre : List Char) (ch : Char)
    (rest : List Char) (hpre : ∀ c ∈ pre, simpleLitChar c)
    (hlen : pre.length + 1 ≤ SIZE_MAX / 6)
    (hb : ch = lbraceChar ∨ ch = rbraceChar) :
    fstring_find_literal raw 0 (pre ++ ch :: ch :: rest) =
      .ok (some (pre ++ [ch]), rest, 1) := by
  have hcb : ch ≠ bslashChar := by rcases hb with rfl | rfl <;> decide
  have hcore : fstring_find_literal_core raw 0 false [] (pre ++ ch :: ch :: rest) =
      .doubled (pre ++ [ch]) rest := by
    rw [core_walk raw 0 pre [] _ hpre, core_step_brace _ _ _ _ _ hcb hb]
    simp [handleBrace]
  have hnb : bslashChar ∉ pre ++ [ch] := by
    intro hm
    rcases List.mem_append.mp hm with hm | hm
    · exact (hpre _ hm).1 rfl
    · simp at hm
      exact hcb hm.symm
  unfold fstring_find_literal
  simp only [hcore, literal_decode_some raw _ (by simp) hnb (by simpa using hlen)]

theorem find_literal_stopped_brace (raw : Bool) (k : Nat) (pre : List Char)
    (bc : Char) (rest : List Char) (hpre : ∀ c ∈ pre, simpleLitChar c)
    (hlen : pre.length ≤ SIZE_MAX / 6)
    (hb : bc = lbraceChar ∨ bc = rbraceChar) :
    fstring_find_literal raw (k + 1) (pre ++ bc :: rest) =
      .ok ((if pre = [] then none else some pre), bc :: rest, 0) := by
  have hcb : bc ≠ bslashChar := by rcases hb with rfl | rfl <;> decide
  have hcore : fstring_find_literal_core raw (k + 1) false [] (pre ++ bc :: rest) =
      .stopped pre (bc :: rest) := by
    rw [core_walk raw (k + 1) pre [] _ hpre, core_step_brace _ _ _ _ _ hcb hb]
    simp [handleBrace]
  have hnb : bslashChar ∉ pre := fun hm => (hpre _ hm).1 rfl
  unfold fstring_find_literal
  by_cases hp : pre = []
  · subst hp
    simp only [hcore]
    simp [fstring_literal_decode]
  · simp only [hcore, literal_decode_some raw _ hp hnb hlen, if_neg hp]

theorem find_literal_single_err (raw : Bool) (pre rest : List Char)
    (hpre : ∀ c ∈ pre, simpleLitChar c)
    (hrest : rest = [] ∨ peekc rest ≠ rbraceChar) :
    fstring_find_literal raw 0 (pre ++ rbraceChar :: rest) =
      .error (.syn msgSingleRbrace) := by
  have hcore : fstring_find_literal_core raw 0 false [] (pre ++ rbraceChar :: rest) =
      .singleErr := by
    rw [core_walk raw 0 pre [] _ hpre,
      core_step_brace _ _ _ _ _ (by decide) (Or.inr rfl)]
    cases rest with
    | nil => simp [handleBrace]
    | cons e s2 =>
      have he : e ≠ rbraceChar := by
        rcases hrest with h | h
        · exact absurd h (by simp)
        · simpa [peekc] using h
      simp [handleBrace, he]
  unfold fstring_find_literal
  simp only [hcore]

/-- C2: a doubled brace at recursion level 0 yields status 1 with the
literal running through the first brace only and the cursor placed past
the second brace; at recursion level at least 1 the doubled-brace check
is disabled, and the scanner stops with status 0 and the cursor on the
first brace it meets, so a single right brace ends a nested format
spec.  The preceding run `pre` is any stretch of ordinary literal
characters (no brace, no backslash) small enough for the decoder's
overflow guard. -/
theorem claimC2 (raw : Bool) (lvl : Nat) (pre rest : List Char) (ch : Char)
    (hpre : ∀ c ∈ pre, simpleLitChar c)
    (hlen : pre.length + 1 ≤ SIZE_MAX / 6)
    (hb : ch = lbraceChar ∨ ch = rbraceChar) :
    (fstring_find_literal raw 0 (pre ++ ch :: ch :: rest) =
        .ok (some (pre ++ [ch]), rest, 1))
    ∧ (1 ≤ lvl →
        fstring_find_literal raw lvl (pre ++ rbraceChar :: rest) =
          .ok ((if pre = [] then none else some pre), rbraceChar :: rest, 0))
    ∧ (1 ≤ lvl →
        fstring_find_literal raw lvl (pre ++ lbraceChar :: rest) =
          .ok ((if pre = [] then none else some pre), lbraceChar :: rest, 0)) := by
  refine ⟨find_literal_doubled raw pre ch rest hpre hlen hb, fun hl => ?_, fun hl => ?_⟩
  · obtain ⟨k, rfl⟩ : ∃ k, lvl = k + 1 := ⟨lvl - 1, by omega⟩
    exact find_literal_stopped_brace raw k pre rbraceChar rest hpre (by omega) (Or.inr rfl)
  · obtain ⟨k, rfl⟩ : ∃ k, lvl = k + 1 := ⟨lvl - 1, by omega⟩
    exact find_literal_stopped_brace raw k pre lbraceChar rest hpre (by omega) (Or.inl rfl)

/-- C2 witness: concrete doubled brace and concrete nested format spec
termination. -/
theorem claimC2_witness :
    fstring_find_literal false 0 ('a' :: lbraceChar :: lbraceChar :: 'x' :: []) =
        .ok (some ('a' :: lbraceChar :: []), ['x'], 1)
    ∧ fstring_find_literal false 1 ('a' :: rbraceChar :: rbraceChar :: []) =
        .ok (some ['a'], rbraceChar :: rbraceChar :: [], 0) :=
  ⟨(claimC2 false 1 ['a'] ['x'] lbraceChar (by decide) (by decide)
      (Or.inl rfl)).1,
    (claimC2 false 1 ['a'] (rbraceChar :: []) rbraceChar (by decide) (by decide)
      (Or.inr rfl)).2.1 (by decide)⟩

/-- C3: at recursion level 0, a right brace that is not doubled makes the
literal scanner fail with the single-brace syntax error, producing no
literal, and the message contains the quoted fragment. -/
theorem claimC3 (raw : Bool) (pre rest : List Char)
    (hpre : ∀ c ∈ pre, simpleLitChar c)
    (hrest : rest = [] ∨ peekc rest ≠ rbraceChar) :
    fstring_find_literal raw 0 (pre ++ rbraceChar :: rest) =
        .error (.syn msgSingleRbrace)
    ∧ hasSubstr "single \x27\x7d\x27 is not allowed".toList msgSingleRbrace.toList = true :=
  ⟨find_literal_single_err raw pre rest hpre hrest, by decide⟩

/-- C3 witness: the body of the spec example, a lone right brace. -/
theorem claimC3_witness :
    fstring_find_literal false 0 ('a' :: rbraceChar :: []) =
      .error (.syn msgSingleRbrace) :=
  (claimC3 false ['a'] [] (by decide) (Or.inl rfl)).1

/-- C7: the text escape decoder rejects inputs longer than a sixth of
SIZE_MAX before decoding anything. -/
theorem claimC7 (s : List Char) (h : SIZE_MAX / 6 < s.length) :
    decode_unicode_with_escapes s = none := by
  unfold decode_unicode_with_escapes
  rw [if_pos h]

/-- C7 witness: a list one element longer than the bound. -/
theorem claimC7_witness :
    decode_unicode_with_escapes (List.replicate (SIZE_MAX / 6 + 1) 'a') = none :=
  claimC7 _ (by simp)

/-- C8: an all-whitespace embedded expression (spaces, tabs, newlines,
form feeds, or empty) is rejected by the expression compiler with the
empty-expression syntax error, producing no node, and the message
contains the quoted fragment. -/
theorem claimC8 (rp : ExprParserFn) (expr : List Char)
    (h : ∀ c ∈ expr, c = ' ' ∨ c = Char.ofNat 9 ∨ c = Char.ofNat 10 ∨ c = Char.ofNat 12) :
    fstring_compile_expr rp expr = .error (.syn msgEmptyExpr)
    ∧ hasSubstr "empty expression not allowed".toList msgEmptyExpr.toList = true := by
  refine ⟨?_, by decide⟩
  unfold fstring_compile_expr
  rw [if_pos ?_]
  exact List.all_eq_true.mpr fun x hx => by
    rcases h x hx with rfl | rfl | rfl | rfl <;> decide

/-- C8 witness: the empty expression of the spec example. -/
theorem claimC8_witness :
    fstring_compile_expr rpModel [] = .error (.syn msgEmptyExpr) :=
  (claimC8 rpModel [] (by simp)).1

/-- C4 counterexample: the claim says a less-than is scanned but never
treated as a terminator at any position including the last byte; on the
expression body consisting of the letter a followed by a final less-than,
the scanning loop stops at the less-than (the expression range ends
before it) instead of continuing past it as it would anywhere else. -/
theorem claimC4_counterexample :
    scanExprAux 2 ['a'] none 0 [] ['<'] = .done ['a'] ['<']
    ∧ scanExprAux 2 ['a'] none 0 [] ['<'] ≠ scanExprAux 1 ['<', 'a'] none 0 [] [] :=
  ⟨rfl, by decide⟩

/-- C4 (amended): at nesting depth 0 outside nested strings, a colon or
right brace always ends the scan at that byte; an exclamation mark or
equals sign ends it unless followed by an equals sign; the two-character
operators consume the extra byte and scanning continues; a less-than or
greater-than followed by any byte other than an equals sign is consumed
and scanning continues, but a less-than or greater-than that is the last
byte of the body ends the scan at that byte. -/
theorem claimC4_amended :
    (∀ (fuel : Nat) (acc rest : List Char) (c : Char),
        c = ':' ∨ c = rbraceChar →
        scanExprAux (fuel + 1) acc none 0 [] (c :: rest) = .done acc.reverse (c :: rest))
    ∧ (∀ (fuel : Nat) (acc rest : List Char) (c : Char),
        c = '!' ∨ c = '=' → (rest = [] ∨ peekc rest ≠ '=') →
        scanExprAux (fuel + 1) acc none 0 [] (c :: rest) = .done acc.reverse (c :: rest))
    ∧ (∀ (fuel : Nat) (acc s1 : List Char) (c : Char),
        c = '!' ∨ c = '=' ∨ c = '<' ∨ c = '>' →
        scanExprAux (fuel + 1) acc none 0 [] (c :: '=' :: s1) =
          scanExprAux fuel ('=' :: c :: acc) none 0 [] s1)
    ∧ (∀ (fuel : Nat) (acc s1 : List Char) (c d : Char),
        c = '<' ∨ c = '>' → d ≠ '=' →
        scanExprAux (fuel + 1) acc none 0 [] (c :: d :: s1) =
          scanExprAux fuel (c :: acc) none 0 [] (d :: s1))
    ∧ (∀ (fuel : Nat) (acc : List Char) (c : Char),
        c = '<' ∨ c = '>' →
        scanExprAux (fuel + 1) acc none 0 [] [c] = .done acc.reverse [c]) := by
  refine ⟨?_, ?_, ?_, ?_, ?_⟩
  · intro fuel acc rest c hc
    rcases hc with rfl | rfl <;>
      cases rest <;> (rw [scanExprAux.eq_def]; simp +decide)
  · intro fuel acc rest c hc hr
    rcases hc with rfl | rfl <;>
      cases rest with
      | nil => rw [scanExprAux.eq_def]; simp +decide
      | cons d s1 =>
        have hd : d ≠ '=' := by
          rcases hr with h | h
          · exact absurd h (by simp)
          · simpa [peekc] using h
        rw [scanExprAux.eq_def]
        simp +decide [hd]
  · intro fuel acc s1 c hc
    rcases hc with rfl | rfl | rfl | rfl <;> (rw [scanExprAux.eq_def]; simp +decide)
  · intro fuel acc s1 c d hc hd
    rcases hc with rfl | rfl <;> (rw [scanExprAux.eq_def]; simp +decide [hd])
  · intro fuel acc c hc
    rcases hc with rfl | rfl <;> (rw [scanExprAux.eq_def]; simp +decide)

/-- C4 witness: a less-than with a following byte is consumed and the
scan continues. -/
theorem claimC4_witness :
    scanExprAux 3 [] none 0 [] ('<' :: 'a' :: []) =
      scanExprAux 2 ['<'] none 0 [] ['a'] :=
  claimC4_amended.2.2.2.1 2 [] [] '<' 'a' (Or.inl rfl) (by decide)

theorem scan_done_no_backslash :
    ∀ (fuel : Nat) (acc : List Char) (qc : Option Char) (stype : Nat)
      (stack r expr rest : List Char), bslashChar ∉ acc →
      scanExprAux fuel acc qc stype stack r = .done expr rest → bslashChar ∉ expr := by
  intro fuel
  induction fuel with
  | zero =>
    intro acc qc stype stack r expr rest _ h
    exact absurd h (by simp [scanExprAux])
  | succ f ih =>
    intro acc qc stype stack r expr rest hacc h
    cases r with
    | nil => simp [scanExprAux] at h
    | cons c s =>
      by_cases hc : c = bslashChar
      · rw [scanExprAux.eq_def] at h
        simp only [if_pos hc] at h
        exact absurd h (by simp)
      · rw [scanExprAux.eq_def] at h
        simp only [if_neg hc] at h
        split at h <;> (repeat' split at h) <;>
          solve
          | ((cases h) <;> simp_all [List.mem_reverse])
          | (refine ih _ _ _ _ _ _ _ ?_ h
             simp_all +decide <;> (try exact fun e => hc e.symm))
          | (rcases ‹_ ∨ _› with ⟨rfl, rfl⟩ | ⟨rfl, rfl⟩ | ⟨rfl, rfl⟩ | ⟨rfl, rfl⟩ <;>
             refine ih _ _ _ _ _ _ _ ?_ h <;> simp_all +decide)

/-- C9: a backslash byte at the cursor makes the expression scanner fail
with the backslash syntax error in every scanner state, inside nested
strings and nested brackets included; the message contains the quoted
fragment; every expression range the scanner does produce is
backslash-free; and a scan failure makes fstring_find_expr fail with the
same message, so no FormattedValue node is produced. -/
theorem claimC9 :
    (∀ (fuel : Nat) (acc : List Char) (qc : Option Char) (stype : Nat)
        (stack s : List Char),
        scanExprAux (fuel + 1) acc qc stype stack (bslashChar :: s) = .err msgBackslash)
    ∧ hasSubstr "cannot include a backslash".toList msgBackslash.toList = true
    ∧ (∀ (fuel : Nat) (qc : Option Char) (stype : Nat) (stack r expr rest : List Char),
        scanExprAux fuel [] qc stype stack r = .done expr rest → bslashChar ∉ expr)
    ∧ (∀ (pf : List Char → Except ParseErr (MysExpr × List Char)) (rp : ExprParserFn)
        (fv lvl : Nat) (r : List Char) (m : String), lvl < 2 →
        scanExpr (r.drop 1) = .err m →
        fstring_find_expr_with pf rp fv lvl r = .error (.syn m)) := by
  refine ⟨?_, by decide, ?_, ?_⟩
  · intro fuel acc qc stype stack s
    rw [scanExprAux.eq_def]
    simp
  · intro fuel qc stype stack r expr rest h
    exact scan_done_no_backslash fuel [] qc stype stack r expr rest (by simp) h
  · intro pf rp fv lvl r m hl hs
    unfold fstring_find_expr_with
    rw [if_neg (by omega)]
    simp only [hs]

/-- C9 witness: the spec example body with a backslash inside the
expression is rejected by fstring_find_expr with the backslash message. -/
theorem claimC9_witness :
    fstring_find_expr_with parseFmtUnused rpModel 8 0
        (lbraceChar :: 'a' :: bslashChar :: 'b' :: rbraceChar :: []) =
      .error (.syn msgBackslash) :=
  claimC9.2.2.2 parseFmtUnused rpModel 8 0 _ msgBackslash (by decide) rfl

theorem applyLitOpt_fmode (st : FPState) (l : Option (List Char)) :
    (applyLitOpt st l).fmode = st.fmode := by
  obtain ⟨ls, fm, el⟩ := st
  cases l with
  | none => rfl
  | some s =>
    cases ls <;> by_cases hs : s = [] <;>
      simp [applyLitOpt, FstringParser_ConcatAndDel, hs]

theorem flushLast_fmode (st : FPState) (tks : List Char) :
    (flushLast st tks).fmode = st.fmode := by
  obtain ⟨ls, fm, el⟩ := st
  cases ls <;> rfl

theorem concatEndCheck_st (lvl : Nat) (st : FPState) (r : List Char)
    (st1 : FPState) (r1 : List Char)
    (h : concatEndCheck lvl st r = .ok (st1, r1)) : st1 = st := by
  unfold concatEndCheck at h
  split_ifs at h
  simp at h
  exact h.1.symm

theorem concatLoopWith_fmode :
    ∀ (fuel : Nat) (fle : List Char → Except ParseErr FLEOut) (lvl : Nat)
      (tks : List Char) (st : FPState) (r : List Char) (st1 : FPState) (r1 : List Char),
      concatLoopWith fle lvl tks fuel st r = .ok (st1, r1) → st1.fmode = st.fmode := by
  intro fuel
  induction fuel with
  | zero =>
    intro fle lvl tks st r st1 r1 h
    exact absurd h (by simp [concatLoopWith])
  | succ f ih =>
    intro fle lvl tks st r st1 r1 h
    cases hfle : fle r with
    | error e =>
      simp only [concatLoopWith, hfle] at h
      exact absurd h (by simp)
    | ok o =>
      simp only [concatLoopWith, hfle] at h
      by_cases hs : o.status = 1
      · rw [if_pos hs] at h
        rw [ih fle lvl tks _ _ _ _ h, applyLitOpt_fmode, applyLitOpt_fmode]
      · rw [if_neg hs] at h
        cases he : o.expression with
        | none =>
          rw [he] at h
          rw [concatEndCheck_st lvl _ _ _ _ h, applyLitOpt_fmode, applyLitOpt_fmode]
        | some e =>
          rw [he] at h
          rw [ih fle lvl tks _ _ _ _ h]
          show (pushExpr _ e).fmode = _
          unfold pushExpr
          rw [flushLast_fmode, applyLitOpt_fmode, applyLitOpt_fmode]

/-- C1 counterexample: driving ConcatFstring then Finish on the body of
two doubled braces produces a JoinedStr wrapping one Constant, not the
bare Constant node the claim asserts (ConcatFstring sets fmode, and
Finish then always builds a JoinedStr). -/
theorem claimC1_counterexample :
    isConstantResult (driveFstring rpModel 8 false fTokC1 20 bodyC1) = false
    ∧ driveFstring rpModel 8 false fTokC1 20 bodyC1 =
        .ok (.joinedStr [.constant undoubledC1 none]) :=
  ⟨rfl, rfl⟩

/-- C1 (amended): a drive of the assembler (ConcatFstring then Finish)
that succeeds having met no embedded expression (empty expression list)
and accumulated a literal produces a JoinedStr wrapping exactly one
Constant holding that literal; on the two spec examples the Constant
holds the un-doubled text. -/
theorem claimC1_amended :
    (∀ (rp : ExprParserFn) (fv : Nat) (raw : Bool) (tks : List Char) (fuel : Nat)
        (body : List Char) (st : FPState) (r1 : List Char),
        FstringParser_ConcatFstring rp fv raw tks fuel ⟨none, false, []⟩ body =
          .ok (st, r1) →
        st.exprList = [] → ∀ txt, st.lastStr = some txt →
        FstringParser_Finish st tks = .joinedStr [make_str_node tks txt])
    ∧ driveFstring rpModel 8 false fTokC1 20 bodyC1 =
        .ok (.joinedStr [.constant undoubledC1 none])
    ∧ driveFstring rpModel 8 false fTokC1b 40 bodyC1b =
        .ok (.joinedStr [.constant undoubledC1b none]) := by
  refine ⟨?_, rfl, rfl⟩
  intro rp fv raw tks fuel body st r1 h hel txt hls
  have hf : st.fmode = true :=
    concatLoopWith_fmode fuel _ 0 tks ⟨none, true, []⟩ body st r1 h
  obtain ⟨ls, fm, el⟩ := st
  have hfm : fm = true := hf
  have hel2 : el = [] := hel
  have hls2 : ls = some txt := hls
  subst hfm
  subst hel2
  subst hls2
  simp [FstringParser_Finish]

/-- C1 witness: the concrete final state of the doubled-brace drive,
finished. -/
theorem claimC1_witness :
    FstringParser_Finish ⟨some undoubledC1, true, []⟩ fTokC1 =
      .joinedStr [make_str_node fTokC1 undoubledC1] :=
  claimC1_amended.1 rpModel 8 false fTokC1 20 bodyC1 ⟨some undoubledC1, true, []⟩ []
    rfl rfl undoubledC1 rfl

/-- C5 counterexample: a finalization with fmode unset over a token whose
raw text starts with upper-case U yields a Constant whose kind is absent,
although the claim demands kind u for either case of the letter. -/
theorem claimC5_counterexample :
    ¬(kindOf (FstringParser_Finish ⟨some ['x'], false, []⟩ tokC5) = some "u" ↔
        (peekc tokC5 = 'u' ∨ peekc tokC5 = 'U')) := by decide

/-- C5 (amended): with fmode unset, Finish returns a single Constant
built from the pending literal (empty when absent), and its kind field
is u exactly when the first byte of the token is the lower-case letter
u. -/
theorem claimC5_amended (ls : Option (List Char)) (es : List MysExpr) (tks : List Char) :
    FstringParser_Finish ⟨ls, false, es⟩ tks =
        .constant (ls.getD []) (if peekc tks = 'u' then some "u" else none)
    ∧ (kindOf (FstringParser_Finish ⟨ls, false, es⟩ tks) = some "u" ↔
        peekc tks = 'u') := by
  have h1 : FstringParser_Finish ⟨ls, false, es⟩ tks =
      .constant (ls.getD []) (if peekc tks = 'u' then some "u" else none) := by
    simp [FstringParser_Finish, make_str_node]
  refine ⟨h1, ?_⟩
  rw [h1]
  by_cases hu : peekc tks = 'u' <;> simp [kindOf, hu]

/-- C6 counterexample: on the double-quoted token with both the f and b
prefix letters, parsestr fails with PyErr_BadInternalCall, not with a
syntax error as the claim states. -/
theorem claimC6_counterexample :
    isSynErr (parsestr 6 tokC6) = false
    ∧ parsestr 6 tokC6 = .error .badInternalCall :=
  ⟨rfl, rfl⟩

/-- C6 (amended): whenever the prefix scan sets both fmode and bytesmode
and the character after the prefix letters is not a single quote (which
would raise the char-prefix syntax error earlier), parsestr at feature
version at least 6 fails with the bad-internal-call error rather than a
syntax error. -/
theorem claimC6_amended (fv : Nat) (tok s : List Char) (rm rem cm : Bool)
    (hp : parsestrPrefix tok = ((true, rm, rem, cm, true), s))
    (hq : peekc s ≠ squoteChar) (hfv : 6 ≤ fv) :
    parsestr fv tok = .error .badInternalCall := by
  unfold parsestr
  rw [hp]
  simp only
  rw [if_neg (fun hh => hq hh.1), if_neg (fun hh => absurd hh.2 (by omega)),
    if_pos (by simp)]

/-- C6 witness: the f-b token applied to the amended statement. -/
theorem claimC6_witness :
    parsestr 6 tokC6 = .error .badInternalCall :=
  claimC6_amended 6 tokC6 (dquoteChar :: dquoteChar :: []) false false false rfl
    (by decide) (by decide)

/-- C10: a double-quoted token with no prefix whose body contains no
backslash comes back from parsestr with the rawmode flag reported true
and the body decoded on the plain UTF-8 path (no escape decoding), and
the escape decoder would have produced the same value on that body;
likewise a b-prefixed token with an ASCII body yields the raw bytes,
matching what the bytes escape decoder would produce. -/
theorem claimC10 (fv : Nat) (body : List Char)
    (hnb : bslashChar ∉ body) (hnq : dquoteChar ∉ body)
    (hint : body.length + 1 ≤ INT_MAX) (hsz : body.length ≤ SIZE_MAX / 6) :
    (parsestr fv (dquoteChar :: body ++ [dquoteChar]) =
        .ok ⟨false, true, false, false, false, some (.text body), none, none⟩)
    ∧ decode_unicode_with_escapes body = some body
    ∧ ((∀ c ∈ body, c.toNat < 128) →
        parsestr fv ('b' :: dquoteChar :: body ++ [dquoteChar]) =
          .ok ⟨true, true, false, false, false, some (.bytes body), none, none⟩
        ∧ decode_bytes_with_escapes body = some body) := by
  have hcont : body.contains bslashChar = false := by simpa using hnb
  have htrip : ¬(4 ≤ body.length ∧ peekc body = dquoteChar ∧
      peekc body.tail = dquoteChar) := by
    intro ⟨hl, hh, _⟩
    cases body with
    | nil => simp at hl
    | cons c t =>
        have hc : c = dquoteChar := hh
        exact hnq (hc ▸ List.mem_cons_self c t)
  have hpk : peekc (dquoteChar :: (body ++ [dquoteChar])) = dquoteChar := rfl
  have hdrop : List.drop 1 (dquoteChar :: (body ++ [dquoteChar])) =
      body ++ [dquoteChar] := rfl
  have hint2 : ¬ (INT_MAX < body.length + 1) := by omega
  have hint3 : ¬ (INT_MAX < (body ++ [dquoteChar]).length) := by
    simp only [List.length_append, List.length_cons, List.length_nil]
    omega
  have htake : List.take (body.length + 1) (body ++ [dquoteChar]) =
      body ++ [dquoteChar] := by
    have h : (body ++ [dquoteChar]).length = body.length + 1 := by simp
    rw [← h, List.take_length]
  have hbody : parsestrBody false false false false false false body none =
      .ok ⟨false, true, false, false, false, some (.text body), none, none⟩ := by
    unfold parsestrBody
    simp only [hcont]
    rfl
  refine ⟨?_, decode_unicode_with_escapes_id body hnb hsz, fun hascii => ⟨?_, ?_⟩⟩
  · have hpre : parsestrPrefix (dquoteChar :: body ++ [dquoteChar]) =
        ((false, false, false, false, false), dquoteChar :: body ++ [dquoteChar]) := rfl
    unfold parsestr
    rw [hpre]
    simp +decide [hpk, hdrop, hint2, hint3, htake, htrip, hbody,
      List.getLast?_concat, List.dropLast_concat]
  · have hpre2 : parsestrPrefix ('b' :: dquoteChar :: body ++ [dquoteChar]) =
        ((true, false, false, false, false), dquoteChar :: body ++ [dquoteChar]) := by
      cases body with
      | nil => rfl
      | cons a t => rfl
    have hany : body.any (fun ch => 128 ≤ ch.toNat) = false := by
      simp only [List.any_eq_false, decide_eq_true_eq, not_le]
      exact hascii
    have hbodyB : parsestrBody true false false false false false body none =
        .ok ⟨true, true, false, false, false, some (.bytes body), none, none⟩ := by
      unfold parsestrBody
      simp only [hcont, hany]
      rfl
    unfold parsestr
    rw [hpre2]
    simp +decide [hpk, hdrop, hint2, hint3, htake, htrip, hbodyB,
      List.getLast?_concat, List.dropLast_concat]
  · exact decode_bytes_with_escapes_id body hnb

/-- C10 witness: the tokens "hi" and b"hi" come back rawmode true, with
the body decoded as is. -/
theorem claimC10_witness :
    parsestr 7 (dquoteChar :: ['h', 'i'] ++ [dquoteChar]) =
        .ok ⟨false, true, false, false, false, some (.text ['h', 'i']), none, none⟩
    ∧ parsestr 7 ('b' :: dquoteChar :: ['h', 'i'] ++ [dquoteChar]) =
        .ok ⟨true, true, false, false, false, some (.bytes ['h', 'i']), none, none⟩ :=
  ⟨(claimC10 7 ['h', 'i'] (by decide) (by decide) (by decide) (by decide)).1,
   ((claimC10 7 ['h', 'i'] (by decide) (by decide) (by decide) (by decide)).2.2
      (by decide)).1⟩

end Mys
